import Mathlib

/-!
Verification development for the table-chat application's streaming decoder
(`src/frontend/src/utils/streamParser.ts`) and tool execution engine
(`src/frontend/src/utils/toolExecutor.ts`).

Strings are modelled as `List Char`; JavaScript numbers are modelled as exact
rationals extended with `NaN` and the two infinities (the programs compared
here never exercise double rounding).  Host primitives (`JSON.parse`,
`TextDecoder`) are modelled as parameters or at their output boundary, as
noted at each definition.
-/

set_option maxHeartbeats 1000000

abbrev Str := List Char

/-- JavaScript number: NaN, the infinities, or a finite value (exact rational). -/
inductive JNum where
  | nan
  | posInf
  | negInf
  | fin (q : ℚ)
deriving DecidableEq

/-- JavaScript runtime value as far as the tool executor observes it:
`undefined`, `null`, booleans, numbers and strings (the scalar JSON values the
tool argument schemas admit). -/
inductive JsVal where
  | undef
  | null
  | bool (b : Bool)
  | num (n : JNum)
  | str (s : Str)
deriving DecidableEq

/-- JavaScript truthiness of a value (`if (v)`). -/
def truthy : JsVal → Bool
  | .undef => false
  | .null => false
  | .bool b => b
  | .num .nan => false
  | .num (.fin q) => decide (q ≠ 0)
  | .num _ => true
  | .str s => decide (s ≠ [])

/-- Characters treated as whitespace by ECMAScript `ToNumber` / `trim` (the
ASCII subset, which is all the application's data contains). -/
def isJsWs (c : Char) : Bool :=
  c = ' ' || c = '\t' || c = '\n' || c = '\r' || c = '\x0b' || c = '\x0c'

/-- Lowercase a modelled string character-wise (`String.prototype.toLowerCase`
restricted to ASCII). -/
def toLowerStr (s : Str) : Str := s.map Char.toLower

/-- Strip leading and trailing whitespace (`String.prototype.trim`). -/
def trimStr (s : Str) : Str :=
  ((s.dropWhile isJsWs).reverse.dropWhile isJsWs).reverse

def digitVal (c : Char) : Nat := c.toNat - '0'.toNat

def isDigitCh (c : Char) : Bool := '0' ≤ c && c ≤ '9'

def isHexCh (c : Char) : Bool :=
  isDigitCh c || ('a' ≤ c && c ≤ 'f') || ('A' ≤ c && c ≤ 'F')

def hexVal (c : Char) : Nat :=
  if isDigitCh c then digitVal c
  else if 'a' ≤ c && c ≤ 'f' then c.toNat - 'a'.toNat + 10
  else c.toNat - 'A'.toNat + 10

def natOfDigits (ds : List Char) : Nat :=
  ds.foldl (fun acc c => acc * 10 + digitVal c) 0

def natOfRadix (r : Nat) (val : Char → Nat) (ds : List Char) : Nat :=
  ds.foldl (fun acc c => acc * r + val c) 0

/-- Parse the decimal part of an ECMAScript numeric literal
(`digits [. digits] [e sign digits]`, also `.digits`); returns `none` when the
string is not such a literal.  The value is `mantissa * 10 ^ exponent`,
assembled with `mkRat` so that it stays kernel-computable. -/
def parseDecimalLit (s : Str) : Option ℚ :=
  let intPart := s.takeWhile isDigitCh
  let rest1 := s.dropWhile isDigitCh
  let (fracPart, rest2) :=
    match rest1 with
    | '.' :: t => (t.takeWhile isDigitCh, t.dropWhile isDigitCh)
    | _ => ([], rest1)
  let expOk : Option Int :=
    match rest2 with
    | [] => some 0
    | e :: t =>
      if e = 'e' || e = 'E' then
        let (sgn, ds) :=
          match t with
          | '+' :: u => ((1 : Int), u)
          | '-' :: u => ((-1 : Int), u)
          | u => ((1 : Int), u)
        if ds ≠ [] ∧ ds.all isDigitCh then some (sgn * (natOfDigits ds : Int))
        else none
      else none
  match expOk with
  | none => none
  | some ex =>
    if intPart = [] ∧ fracPart = [] then none
    else if (match rest1 with | '.' :: _ => false | _ => fracPart ≠ []) then none
    else
      let mantissa := natOfDigits (intPart ++ fracPart)
      let e : Int := ex - (fracPart.length : Int)
      some (if 0 ≤ e then mkRat (mantissa * 10 ^ e.toNat) 1
            else mkRat mantissa (10 ^ (-e).toNat))

/-- ECMAScript `StringToNumber`: trim, empty gives 0, non-decimal integer
literals (hex, octal, binary) without sign, otherwise optional sign followed by
`Infinity` or a decimal literal; anything else gives NaN. -/
def strToNum (s : Str) : JNum :=
  let t := trimStr s
  match t with
  | [] => .fin 0
  | '0' :: x :: ds =>
    if (x = 'x' || x = 'X') && ds ≠ [] && ds.all isHexCh then
      .fin (mkRat (natOfRadix 16 hexVal ds) 1)
    else if (x = 'o' || x = 'O') && ds ≠ [] && ds.all (fun c => '0' ≤ c && c ≤ '7') then
      .fin (mkRat (natOfRadix 8 digitVal ds) 1)
    else if (x = 'b' || x = 'B') && ds ≠ [] && ds.all (fun c => c = '0' || c = '1') then
      .fin (mkRat (natOfRadix 2 digitVal ds) 1)
    else
      match parseDecimalLit t with
      | some q => .fin q
      | none => .nan
  | _ =>
    let (isNeg, body) :=
      match t with
      | '+' :: u => (false, u)
      | '-' :: u => (true, u)
      | u => (false, u)
    if body = "Infinity".toList then
      (match t with | '-' :: _ => .negInf | _ => .posInf)
    else
      match parseDecimalLit body with
      | some q => .fin (if isNeg then -q else q)
      | none => .nan

/-- ECMAScript `ToNumber` on the modelled values (`Number(v)`). -/
def toNumber : JsVal → JNum
  | .undef => .nan
  | .null => .fin 0
  | .bool b => .fin (if b then 1 else 0)
  | .num n => n
  | .str s => strToNum s

/-- JavaScript `<` on numbers: any comparison with NaN is false. -/
def jnumLt : JNum → JNum → Bool
  | .nan, _ => false
  | _, .nan => false
  | .posInf, _ => false
  | .negInf, .negInf => false
  | .negInf, _ => true
  | .fin _, .posInf => true
  | .fin _, .negInf => false
  | .fin a, .fin b => decide (a < b)

/-- JavaScript `<=` on numbers: any comparison with NaN is false. -/
def jnumLe : JNum → JNum → Bool
  | .nan, _ => false
  | _, .nan => false
  | .negInf, _ => true
  | .posInf, .posInf => true
  | .posInf, _ => false
  | .fin _, .posInf => true
  | .fin _, .negInf => false
  | .fin a, .fin b => decide (a ≤ b)

/-- JavaScript `===` on numbers: NaN equals nothing, including itself. -/
def jnumEq : JNum → JNum → Bool
  | .nan, _ => false
  | _, .nan => false
  | .posInf, .posInf => true
  | .negInf, .negInf => true
  | .fin a, .fin b => decide (a = b)
  | _, _ => false

/-- Decimal digits of a natural number, as characters. -/
def natToStr (n : Nat) : Str := (Nat.repr n).toList

/-- Fraction digits of `num/den` by long division, stopping at remainder zero;
`fuel` bounds the expansion (the numbers that actually occur are binary
fractions, whose decimal expansions terminate). -/
def fracDigits (fuel : Nat) (num den : Nat) : Str :=
  match fuel with
  | 0 => []
  | fuel + 1 =>
    if num = 0 then []
    else
      let d := num * 10 / den
      Char.ofNat ('0'.toNat + d) :: fracDigits fuel (num * 10 % den) den

/-- JavaScript `String()` of a number (`NaN`, infinities, integers, and
terminating decimal expansions). -/
def jnumToStr : JNum → Str
  | .nan => "NaN".toList
  | .posInf => "Infinity".toList
  | .negInf => "-Infinity".toList
  | .fin q =>
    let sign : Str := if q < 0 then ['-'] else []
    let n := q.num.natAbs
    let d := q.den
    if d = 1 then sign ++ natToStr n
    else sign ++ natToStr (n / d) ++ ['.'] ++ fracDigits 200 (n % d) d

/-- JavaScript `String()` coercion of a modelled value. -/
def jsValToStr : JsVal → Str
  | .undef => "undefined".toList
  | .null => "null".toList
  | .bool b => if b then "true".toList else "false".toList
  | .num n => jnumToStr n
  | .str s => s

/-! ## Date model

The application only ever constructs dates from `YYYY-MM-DD` strings (the
tool layer enforces this with a regex before any `Date` use on tool input).
`jsDateParse` models ECMAScript `new Date(string).getTime()` on the date-only
ISO form: UTC midnight, in milliseconds since the epoch, `none` standing for
an invalid date (NaN time value).  Strings outside this form are mapped to
`none`; the claims settled below never depend on the host's fallback parsing
of non-ISO strings. -/

def isLeapYear (y : Nat) : Bool := y % 4 = 0 && (y % 100 ≠ 0 || y % 400 = 0)

def daysInMonth (y m : Nat) : Nat :=
  if m = 2 then (if isLeapYear y then 29 else 28)
  else if m = 4 || m = 6 || m = 9 || m = 11 then 30
  else 31

def daysBeforeMonth (y m : Nat) : Nat :=
  (List.range (m - 1)).foldl (fun acc i => acc + daysInMonth y (i + 1)) 0

/-- Leap years in the proleptic Gregorian calendar strictly before year `y`
(year 0 itself is a leap year). -/
def leapsBefore (y : Nat) : Nat :=
  match y with
  | 0 => 0
  | n + 1 => n / 4 - n / 100 + n / 400 + 1

/-- Day number of `y-m-d` counted from 0000-01-01. -/
def civilDayNumber (y m d : Nat) : Nat :=
  365 * y + leapsBefore y + daysBeforeMonth y m + (d - 1)

/-- Milliseconds since the Unix epoch of UTC midnight `y-m-d`. -/
def civilMs (y m d : Nat) : Int :=
  ((civilDayNumber y m d : Int) - 719528) * 86400000

/-- Parse a `YYYY-MM-DD` string to a time value (ms since epoch); `none` for
anything else, standing for an invalid date. -/
def jsDateParse (s : Str) : Option Int :=
  match s with
  | [y1, y2, y3, y4, '-', m1, m2, '-', d1, d2] =>
    if [y1, y2, y3, y4, m1, m2, d1, d2].all isDigitCh then
      let y := natOfDigits [y1, y2, y3, y4]
      let m := natOfDigits [m1, m2]
      let d := natOfDigits [d1, d2]
      if 1 ≤ m ∧ m ≤ 12 ∧ 1 ≤ d ∧ d ≤ daysInMonth y m then
        some (civilMs y m d)
      else none
    else none
  | _ => none

/-- Comparison of two optional time values as JavaScript compares `Date`
objects with `<`: false when either is invalid. -/
def dateLt (a b : Option Int) : Bool :=
  match a, b with
  | some x, some y => decide (x < y)
  | _, _ => false

/-- Comparison as JavaScript `<=` on `Date` objects: false when either is
invalid. -/
def dateLe (a b : Option Int) : Bool :=
  match a, b with
  | some x, some y => decide (x ≤ y)
  | _, _ => false

/-! ## Table data model (frontend/src/types, sampleData shape) -/

/-- Row of the table (`TableRow` in `types/index.ts`); `amount` is a number,
the rest are strings (the status enum is a string union). -/
structure TableRow where
  id : Str
  name : Str
  amount : JNum
  status : Str
  date : Str
  category : Str
deriving DecidableEq

/-- One entry of the sorting state (`{ id, desc }`). -/
structure SortEntry where
  id : Str
  desc : Bool
deriving DecidableEq

/-- Stored column filter value (`ColumnFilterValue` plus the optional
`minValue`/`maxValue` fields carried by the range variant; a missing field
is the value `undefined`). -/
structure ColumnFilterValue where
  operator : Str
  value : JsVal
  minValue : JsVal
  maxValue : JsVal
deriving DecidableEq

/-- One entry of `columnFilters` (`{ id, value }`). -/
structure ColumnFilter where
  id : Str
  value : ColumnFilterValue
deriving DecidableEq

structure Pagination where
  pageIndex : Int
  pageSize : Int
deriving DecidableEq

/-- The table state handed to and returned by the tool executor
(`TableState` in `types/index.ts`). -/
structure TableState where
  data : List TableRow
  sorting : List SortEntry
  columnFilters : List ColumnFilter
  pagination : Pagination
deriving DecidableEq

/-- Cell access by column id (`row[column]` / `row.getValue(columnId)`);
unknown ids read as `undefined`. -/
def rowField (r : TableRow) (c : Str) : JsVal :=
  if c = "id".toList then .str r.id
  else if c = "name".toList then .str r.name
  else if c = "amount".toList then .num r.amount
  else if c = "status".toList then .str r.status
  else if c = "date".toList then .str r.date
  else if c = "category".toList then .str r.category
  else JsVal.undef

/-! ## Tool executor (`utils/toolExecutor.ts`)

`JSON.parse` of the tool's argument string is a host primitive; the executor
is parameterised by its outcome (`JParseResult`): either the parsed argument
object (a key/value list, later keys shadowing earlier ones as in JSON) or a
parse-error message.  Everything else is translated directly from the source
file (the revision that includes the date-range merge). -/

/-- Outcome of `JSON.parse` on an argument string. -/
inductive JParseResult where
  | ok (o : List (Str × JsVal))
  | err (msg : Str)
deriving DecidableEq

/-- Property read `args.k` on a parsed JSON object: last binding wins, a
missing key reads as `undefined`. -/
def getField (o : List (Str × JsVal)) (k : Str) : JsVal :=
  match o.reverse.find? (fun p => decide (p.1 = k)) with
  | some p => p.2
  | none => JsVal.undef

/-- The `VALID_COLUMNS` constant of the executor (note: six entries, `id`
included). -/
def VALID_COLUMNS : List Str :=
  ["id".toList, "name".toList, "amount".toList,
   "status".toList, "date".toList, "category".toList]

/-- Join a list of strings with a separator (`Array.prototype.join`). -/
def joinSep (sep : Str) : List Str → Str
  | [] => []
  | [x] => x
  | x :: xs => x ++ sep ++ joinSep sep xs

/-- Lowercase, trim, and check membership in `VALID_COLUMNS`
(`normalizeColumn`). -/
def normalizeColumn (column : Str) : Option Str :=
  let normalized := trimStr (toLowerStr column)
  if normalized ∈ VALID_COLUMNS then some normalized else none

/-- Whether a value is a string (`typeof v === 'string'`). -/
def isStrVal : JsVal → Bool
  | .str _ => true
  | _ => false

/-- Strict equality of a value against a string literal (`v === 'lit'`). -/
def jsStrictEqStr (v : JsVal) (t : Str) : Bool :=
  match v with
  | .str s => decide (s = t)
  | _ => false

/-- The `validateColumn` helper: truthy string whose normalization is a valid
column. -/
def validateColumn (column : JsVal) : Option Str :=
  if ¬truthy column then none
  else match column with
    | .str s => normalizeColumn s
    | _ => none

/-- Result record of one tool execution (`ToolExecutionResult`). -/
structure ToolExecutionResult where
  success : Bool
  message : Option Str
  newState : TableState
deriving DecidableEq

/-- The `createErrorResult` helper. -/
def createErrorResult (message : Str) (currentState : TableState) : ToolExecutionResult :=
  ⟨false, some message, currentState⟩

/-- A tool call as the executor receives it (`ToolCall` in `types`), the
argument payload being the raw JSON string. -/
structure ToolFunction where
  name : Str
  arguments : Str
deriving DecidableEq

structure ToolCall where
  id : Str
  function : ToolFunction
deriving DecidableEq

/-- The `YYYY-MM-DD` regex test used by `isDateValueCheck` / `isDateValue`
and `addRow`. -/
def isoDateShape (s : Str) : Bool :=
  match s with
  | [y1, y2, y3, y4, h1, m1, m2, h2, d1, d2] =>
    [y1, y2, y3, y4, m1, m2, d1, d2].all isDigitCh && h1 = '-' && h2 = '-'
  | _ => false

/-- The `isDateValueCheck` helper: string matching the date regex. -/
def isDateValueCheck (value : JsVal) : Bool :=
  match value with
  | .str s => isoDateShape s
  | _ => false

/-- The `isDateValue` helper (verbatim duplicate of `isDateValueCheck` in the
source). -/
def isDateValue (value : JsVal) : Bool :=
  match value with
  | .str s => isoDateShape s
  | _ => false

/-- The `compareDates` helper: parse both sides as dates, false when either is
invalid, otherwise compare time values according to the operator. -/
def compareDates (date1 date2 : Str) (operator : Str) : Bool :=
  match jsDateParse date1, jsDateParse date2 with
  | some t1, some t2 =>
    if operator = ">".toList then decide (t1 > t2)
    else if operator = "<".toList then decide (t1 < t2)
    else if operator = ">=".toList then decide (t1 ≥ t2)
    else if operator = "<=".toList then decide (t1 ≤ t2)
    else if operator = "==".toList then decide (t1 = t2)
    else if operator = "!=".toList then decide (t1 ≠ t2)
    else false
  | _, _ => false

/-- The `isNumericValue` helper: a number, or a value whose numeric coercion
is not NaN and whose string form is not all-whitespace. -/
def isNumericValue (value : JsVal) : Bool :=
  (match value with | .num _ => true | _ => false) ||
    (decide (toNumber value ≠ .nan) && decide (trimStr (jsValToStr value) ≠ []))

/-- The `compareStrings` helper: case-insensitive equality or inequality. -/
def compareStrings (a b : Str) (operator : Str) : Bool :=
  let aLower := toLowerStr a
  let bLower := toLowerStr b
  if operator = "==".toList then decide (aLower = bLower) else decide (aLower ≠ bLower)

def jnumGt (a b : JNum) : Bool := jnumLt b a

def jnumGe (a b : JNum) : Bool := jnumLe b a

/-- `String.prototype.startsWith`. -/
def strStarts : Str → Str → Bool
  | [], _ => true
  | _ :: _, [] => false
  | a :: as, b :: bs => a = b && strStarts as bs

/-- `String.prototype.includes`. -/
def strIncludes (needle hay : Str) : Bool :=
  match hay with
  | [] => decide (needle = [])
  | _ :: t => strStarts needle hay || strIncludes needle t

/-- `String.prototype.endsWith`. -/
def strEnds (needle hay : Str) : Bool := strStarts needle.reverse hay.reverse

/-- The row-visibility predicate `customFilterFn` (revision with the range
branch): guard, range filter, date comparison, then the operator switch with
numeric coercion. -/
def customFilterFn (row : TableRow) (columnId : Str) (filterValue : ColumnFilterValue) : Bool :=
  if filterValue.operator = [] ∨ filterValue.value = .undef then true
  else
    let operator := filterValue.operator
    let value := filterValue.value
    let minValue := filterValue.minValue
    let maxValue := filterValue.maxValue
    let cellValue := rowField row columnId
    let isDateColumn := decide (columnId = "date".toList)
    let isDateComparison := isDateColumn && isDateValue value
    if operator = "range".toList ∧ minValue ≠ .undef ∧ maxValue ≠ .undef ∧ isDateColumn then
      match jsDateParse (jsValToStr cellValue), jsDateParse (jsValToStr minValue),
            jsDateParse (jsValToStr maxValue) with
      | some c, some mn, some mx => decide (mn ≤ c) && decide (c ≤ mx)
      | _, _, _ => false
    else if isDateComparison then
      compareDates (jsValToStr cellValue) (jsValToStr value) operator
    else
      let isCellNumeric := match cellValue with | .num _ => true | _ => false
      let isBothNumeric := isCellNumeric || (isNumericValue cellValue && isNumericValue value)
      if operator = ">".toList then jnumGt (toNumber cellValue) (toNumber value)
      else if operator = "<".toList then jnumLt (toNumber cellValue) (toNumber value)
      else if operator = ">=".toList then jnumGe (toNumber cellValue) (toNumber value)
      else if operator = "<=".toList then jnumLe (toNumber cellValue) (toNumber value)
      else if operator = "==".toList ∨ operator = "!=".toList then
        if isBothNumeric then
          (if operator = "==".toList then jnumEq (toNumber cellValue) (toNumber value)
           else !jnumEq (toNumber cellValue) (toNumber value))
        else compareStrings (jsValToStr cellValue) (jsValToStr value) operator
      else if operator = "contains".toList then
        strIncludes (toLowerStr (jsValToStr value)) (toLowerStr (jsValToStr cellValue))
      else if operator = "startsWith".toList then
        strStarts (toLowerStr (jsValToStr value)) (toLowerStr (jsValToStr cellValue))
      else if operator = "endsWith".toList then
        strEnds (toLowerStr (jsValToStr value)) (toLowerStr (jsValToStr cellValue))
      else true

/-- Computation of the stored filter value in `filterTable` (source lines
81-172): plain `{operator, value}` unless an existing filter on the date
column can be merged with a complementary bound into a range, or an existing
range can be tightened. -/
def newFilterValueFor (existing : Option ColumnFilterValue) (col : Str)
    (operator : Str) (value : JsVal) : ColumnFilterValue :=
  let plain : ColumnFilterValue := ⟨operator, value, .undef, .undef⟩
  match existing with
  | none => plain
  | some ex =>
    if decide (col = "date".toList) && isDateValueCheck value then
      if (ex.operator = ">=".toList ∧ operator = "<=".toList) ∨
         (ex.operator = "<=".toList ∧ operator = ">=".toList) then
        let (minValue, maxValue) :=
          if ex.operator = ">=".toList ∧ operator = "<=".toList then (ex.value, value)
          else (value, ex.value)
        match jsDateParse (jsValToStr minValue), jsDateParse (jsValToStr maxValue) with
        | some mn, some mx =>
          if mn ≤ mx then ⟨"range".toList, minValue, minValue, maxValue⟩ else plain
        | _, _ => plain
      else if ex.operator = "range".toList then
        if operator = ">=".toList then
          match jsDateParse (jsValToStr value) with
          | some nm =>
            if ¬truthy ex.maxValue ∨ dateLe (some nm) (jsDateParse (jsValToStr ex.maxValue)) then
              { ex with minValue := value, value := value }
            else plain
          | none => plain
        else if operator = "<=".toList then
          match jsDateParse (jsValToStr value) with
          | some nx =>
            if ¬truthy ex.minValue ∨ dateLe (jsDateParse (jsValToStr ex.minValue)) (some nx) then
              { ex with maxValue := value, value := value }
            else plain
          | none => plain
        else plain
      else plain
    else plain

def msgColumnRequired : Str :=
  "Column parameter is required and must be a string".toList

def msgInvalidColumn (column : JsVal) : Str :=
  "Invalid column \"".toList ++ jsValToStr column ++ "\". Valid columns are: ".toList ++
    joinSep ", ".toList VALID_COLUMNS

/-- The `filterTable` case of the executor switch. -/
def filterTableExec (args : List (Str × JsVal)) (s : TableState) : ToolExecutionResult :=
  let column := getField args "column".toList
  let operator := getField args "operator".toList
  let value := getField args "value".toList
  match validateColumn column with
  | none =>
    createErrorResult
      (if ¬truthy column ∨ ¬isStrVal column then msgColumnRequired else msgInvalidColumn column) s
  | some col =>
    if ¬truthy operator ∨ ¬isStrVal operator then
      createErrorResult "Operator parameter is required and must be a string".toList s
    else if value = .undef ∨ value = .null then
      createErrorResult "Value parameter is required for filtering".toList s
    else
      let opS := jsValToStr operator
      let existingFilter := s.columnFilters.find? (fun f => decide (f.id = col))
      let nfv := newFilterValueFor (existingFilter.map (·.value)) col opS value
      let otherFilters := s.columnFilters.filter (fun f => decide (f.id ≠ col))
      let message :=
        if nfv.operator = "range".toList then
          "Filtered by ".toList ++ col ++ " from ".toList ++ jsValToStr nfv.minValue ++
            " to ".toList ++ jsValToStr nfv.maxValue
        else
          "Filtered by ".toList ++ col ++ [' '] ++ opS ++ [' '] ++ jsValToStr value
      ⟨true, some message, { s with columnFilters := otherFilters ++ [⟨col, nfv⟩] }⟩

/-- The `sortTable` case of the executor switch. -/
def sortTableExec (args : List (Str × JsVal)) (s : TableState) : ToolExecutionResult :=
  let column := getField args "column".toList
  let direction := getField args "direction".toList
  match validateColumn column with
  | none =>
    createErrorResult
      (if ¬truthy column ∨ ¬isStrVal column then msgColumnRequired else msgInvalidColumn column) s
  | some col =>
    if ¬truthy direction ∨ (¬jsStrictEqStr direction "asc".toList ∧
        ¬jsStrictEqStr direction "desc".toList) then
      createErrorResult "Direction must be \"asc\" or \"desc\"".toList s
    else
      ⟨true,
       some ("Sorted by ".toList ++ col ++ " (".toList ++ jsValToStr direction ++ ")".toList),
       { s with sorting := [⟨col, jsStrictEqStr direction "desc".toList⟩] }⟩

def intToStr (i : Int) : Str :=
  if i < 0 then '-' :: natToStr i.natAbs else natToStr i.toNat

/-- The `addRow` case of the executor switch; `now` is `Date.now()`. -/
def addRowExec (now : Int) (args : List (Str × JsVal)) (s : TableState) : ToolExecutionResult :=
  let name := getField args "name".toList
  let amount := getField args "amount".toList
  let status := getField args "status".toList
  let date := getField args "date".toList
  let category := getField args "category".toList
  if ¬isStrVal name ∨ ¬isStrVal date ∨ ¬isStrVal category ∨
     (¬jsStrictEqStr status "active".toList ∧ ¬jsStrictEqStr status "inactive".toList ∧
      ¬jsStrictEqStr status "pending".toList) then
    ⟨false, some "Invalid row data. All fields are required with correct types.".toList, s⟩
  else if ¬isoDateShape (jsValToStr date) then
    ⟨false, some "Date must be in YYYY-MM-DD format (e.g., 2024-01-15)".toList, s⟩
  else
    let newRow : TableRow :=
      ⟨"row-".toList ++ intToStr now, jsValToStr name, toNumber amount,
       jsValToStr status, jsValToStr date, jsValToStr category⟩
    ⟨true, some ("Added row: ".toList ++ jsValToStr name),
     { s with data := s.data ++ [newRow] }⟩

/-- Row selection of the `deleteRow` case: the rows to delete (by id, name,
or column/value precedence), or the error result of a failed selection. -/
def deleteRowPick (args : List (Str × JsVal)) (s : TableState) :
    Except ToolExecutionResult (List TableRow) :=
  let rowId := getField args "rowId".toList
  let name := getField args "name".toList
  let column := getField args "column".toList
  let value := getField args "value".toList
    if truthy rowId && isStrVal rowId then
      match s.data.find? (fun r => decide (r.id = jsValToStr rowId)) with
      | some row => .ok [row]
      | none =>
        .error (createErrorResult
          ("Row with ID \"".toList ++ jsValToStr rowId ++ "\" not found".toList) s)
    else if truthy name && isStrVal name then
      let rows := s.data.filter (fun r => decide (toLowerStr r.name = toLowerStr (jsValToStr name)))
      if rows = [] then
        .error (createErrorResult
          ("No row found with name \"".toList ++ jsValToStr name ++ ['"']) s)
      else .ok rows
    else if truthy column && decide (value ≠ .undef) then
      match validateColumn column with
      | none =>
        .error (createErrorResult
          ("Invalid column \"".toList ++ jsValToStr column ++ "\". Valid columns are: ".toList ++
            joinSep ", ".toList VALID_COLUMNS) s)
      | some col =>
        let rows := s.data.filter (fun row =>
          if col = "date".toList then
            decide (jsValToStr (rowField row col) = jsValToStr value)
          else
            decide (toLowerStr (jsValToStr (rowField row col)) = toLowerStr (jsValToStr value)))
        if rows = [] then
          .error (createErrorResult
            ("No rows found with ".toList ++ col ++ " = \"".toList ++ jsValToStr value ++ ['"']) s)
        else .ok rows
    else
      .error (createErrorResult
        "Must provide either rowId, name, or both column and value to delete a row".toList s)

/-- The `deleteRow` case of the executor switch: select the rows to delete,
then remove every row whose id is among them. -/
def deleteRowExec (args : List (Str × JsVal)) (s : TableState) : ToolExecutionResult :=
  let rowId := getField args "rowId".toList
  let name := getField args "name".toList
  let column := getField args "column".toList
  let value := getField args "value".toList
  match deleteRowPick args s with
  | .error r => r
  | .ok rowsToDelete =>
    let newData := s.data.filter (fun row => ¬rowsToDelete.any (fun r => decide (r.id = row.id)))
    let identifier :=
      if truthy rowId then "ID \"".toList ++ jsValToStr rowId ++ ['"']
      else if truthy name then "name \"".toList ++ jsValToStr name ++ ['"']
      else jsValToStr column ++ " = \"".toList ++ jsValToStr value ++ ['"']
    ⟨true,
     some ("Deleted ".toList ++ natToStr rowsToDelete.length ++ " row(s) with ".toList ++ identifier),
     { s with data := newData }⟩

/-- The executor `executeToolCall` (revision with the date-range merge),
parameterised by the `JSON.parse` outcome `jp` on argument strings and by the
`Date.now()` reading `now`.  All failure paths return the input state; the
outer try/catch of the source has nothing to catch in this total model. -/
def executeToolCall (jp : Str → JParseResult) (now : Int) (toolCall : ToolCall)
    (currentState : TableState) : ToolExecutionResult :=
  match jp toolCall.function.arguments with
  | .err m =>
    createErrorResult ("Failed to parse tool arguments: ".toList ++ m) currentState
  | .ok args =>
    if toolCall.function.name = "filterTable".toList then filterTableExec args currentState
    else if toolCall.function.name = "sortTable".toList then sortTableExec args currentState
    else if toolCall.function.name = "addRow".toList then addRowExec now args currentState
    else if toolCall.function.name = "deleteRow".toList then deleteRowExec args currentState
    else if toolCall.function.name = "clearFilters".toList then
      ⟨true, some "Cleared all filters".toList, { currentState with columnFilters := [] }⟩
    else if toolCall.function.name = "clearSorting".toList then
      ⟨true, some "Cleared sorting".toList, { currentState with sorting := [] }⟩
    else
      createErrorResult ("Unknown tool: ".toList ++ toolCall.function.name) currentState

/-! ## Stream parser (`utils/streamParser.ts`)

The transport hands the parser byte chunks; `TextDecoder` makes byte
boundaries transparent, so chunks are modelled as strings.  The JSON decoding
of a `data:` payload into a `StreamEvent` object is a host primitive
(`JSON.parse` plus the structural typing of the event interface); the parser
is parameterised by it (`decode`), with `none` standing for a JSON parse
failure.  The mutable `ToolCallAccumulator` objects shared between
`toolCallsMap` and `toolCallsByIndex` are modelled with explicit identities:
`heap` holds the allocated accumulators in allocation order, and the map and
the positional array store positions into it. -/

/-- The `content_block` field of a stream event. -/
structure CBlock where
  type : Str
  id : Option Str
  name : Option Str
deriving DecidableEq

/-- The `delta` field of a stream event (`partial_json` / `text`). -/
structure SDelta where
  type : Str
  partialJson : Option Str
  text : Option Str
deriving DecidableEq

/-- One block of a consolidated message's `content` array. -/
structure MBlock where
  type : Str
  text : Option Str
  id : Option Str
  name : Option Str
  input : Option JsVal
deriving DecidableEq

/-- A decoded stream event (the `StreamEvent` interface); optional fields are
`Option`, and `message` stands for `parsed.message?.content` (present exactly
when both the `message` object and its `content` array are). -/
structure StreamEvent where
  type : Str
  content_block : Option CBlock
  delta : Option SDelta
  index : Option Nat
  content : Option (List (Option MBlock))
  message : Option (List (Option MBlock))
deriving DecidableEq

/-- A tool-call accumulator object (`ToolCallAccumulator`). -/
structure ToolAcc where
  id : Str
  name : Str
  arguments : Str
deriving DecidableEq

/-- The parser's per-request mutable state, minus the line buffer (which the
read loop owns separately). -/
structure CoreState where
  accumulatedText : Str
  accumulatedThinking : Str
  isInThinking : Bool
  tagBuffer : Str
  heap : List ToolAcc
  mapOrder : List (Str × Nat)
  byIndex : List (Option Nat)
deriving DecidableEq

/-- `Map.prototype.set`: replace in place when the key exists, append
otherwise. -/
def mapSet (m : List (Str × Nat)) (k : Str) (v : Nat) : List (Str × Nat) :=
  if m.any (fun p => decide (p.1 = k)) then
    m.map (fun p => if p.1 = k then (k, v) else p)
  else m ++ [(k, v)]

/-- Sparse array element assignment `a[i] = v` (holes read as `undefined`). -/
def arrSet (a : List (Option Nat)) (i : Nat) (v : Nat) : List (Option Nat) :=
  if i < a.length then a.set i (some v)
  else a ++ List.replicate (i - a.length) none ++ [some v]

/-- Append a fragment to the `arguments` of the accumulator at heap position
`i` (the `targetToolCall.arguments += ...` mutation). -/
def heapAppendArgs : List ToolAcc → Nat → Str → List ToolAcc
  | [], _, _ => []
  | a :: t, 0, j => { a with arguments := a.arguments ++ j } :: t
  | a :: t, n + 1, j => a :: heapAppendArgs t n j

/-- Position of the most-recently-registered tool call
(`Array.from(toolCallsMap.values())` last element). -/
def lastMapSerial (s : CoreState) : Option Nat := s.mapOrder.getLast?.map (fun p => p.2)

/-- Output record of the tag splitter `extractThinking`. -/
structure ExtractResult where
  text : Str
  thinking : Str
  isInThinking : Bool
  remainingBuffer : Str
deriving DecidableEq

def openTagL : Str := "<thinking>".toList

def closeTagL : Str := "</thinking>".toList

/-- The scanning loop of `extractThinking` over the concatenated input:
recognise the open/close tags case-insensitively, hold a possible partial tag
at the end in the carryover buffer, and route every other character to the
thinking or visible accumulator.  The `fuel` argument only drives structural
recursion; every step consumes at least one character, so fuel equal to the
input length is never exhausted. -/
def extractLoopF : Nat → Bool → Str → ExtractResult
  | 0, inThinking, _ => ⟨[], [], inThinking, []⟩
  | fuel + 1, inThinking, rest =>
    match rest with
    | [] => ⟨[], [], inThinking, []⟩
    | c :: t =>
      if 10 ≤ rest.length ∧ toLowerStr (rest.take 10) = openTagL then
        extractLoopF fuel true (rest.drop 10)
      else if 11 ≤ rest.length ∧ toLowerStr (rest.take 11) = closeTagL then
        extractLoopF fuel false (rest.drop 11)
      else if rest.length < 11 ∧ c = '<' ∧
          (strIncludes "thinking".toList (toLowerStr rest) ∨ rest.length < 11) then
        ⟨[], [], inThinking, rest⟩
      else
        let r := extractLoopF fuel inThinking t
        if inThinking then { r with thinking := c :: r.thinking }
        else { r with text := c :: r.text }

def extractLoop (inThinking : Bool) (rest : Str) : ExtractResult :=
  extractLoopF rest.length inThinking rest

/-- The `extractThinking` helper: prepend the carryover buffer and scan. -/
def extractThinking (text : Str) (currentState : Bool) (tagBuffer : Str) : ExtractResult :=
  extractLoop currentState (tagBuffer ++ text)

/-- `JSON.stringify(block.input || {})`: a falsy or absent input serialises
as the empty object; otherwise the (truthy scalar) value is serialised. -/
def jsonEscape : Str → Str
  | [] => []
  | c :: t =>
    if c = '"' then '\\' :: '"' :: jsonEscape t
    else if c = '\\' then '\\' :: '\\' :: jsonEscape t
    else c :: jsonEscape t

def stringifyInputOrEmpty (input : Option JsVal) : Str :=
  match input with
  | none => ['{', '}']
  | some v =>
    if ¬truthy v then ['{', '}']
    else match v with
      | .bool _ => "true".toList
      | .num n => (match n with | .fin _ => jnumToStr n | _ => "null".toList)
      | .str s => '"' :: jsonEscape s ++ ['"']
      | _ => "null".toList

/-- Register a fresh tool-call accumulator: allocate, `toolCallsMap.set`, and
record it in `toolCallsByIndex` at the given index (or push). -/
def registerCall (s : CoreState) (i n : Str) (args : Str) (idx : Option Nat) : CoreState :=
  let ser := s.heap.length
  { s with
    heap := s.heap ++ [⟨i, n, args⟩],
    mapOrder := mapSet s.mapOrder i ser,
    byIndex :=
      match idx with
      | some k => arrSet s.byIndex k ser
      | none => s.byIndex ++ [some ser] }

/-- Fold the text-delta handling into the state: run the tag splitter and
append the extracted pieces (the source only appends when they are
non-empty, which is the identity otherwise). -/
def applyTextPiece (s : CoreState) (t : Str) : CoreState :=
  let r := extractThinking t s.isInThinking s.tagBuffer
  { s with
    tagBuffer := r.remainingBuffer,
    isInThinking := r.isInThinking,
    accumulatedThinking :=
      if r.thinking ≠ [] then s.accumulatedThinking ++ r.thinking else s.accumulatedThinking,
    accumulatedText :=
      if r.text ≠ [] then s.accumulatedText ++ r.text else s.accumulatedText }

/-- Handling of one block of a consolidated `message` event at position
`idx`: extract text through the tag splitter, register finished `tool_use`
blocks with their serialised input. -/
def applyMsgBlock (s : CoreState) (idx : Nat) (b : Option MBlock) : CoreState :=
  match b with
  | none => s
  | some blk =>
    let sA :=
      if decide (blk.type = "text".toList) &&
          (match blk.text with | some t => decide (t ≠ []) | none => false) then
        (match blk.text with | some t => applyTextPiece s t | none => s)
      else s
    if decide (blk.type = "tool_use".toList) &&
       (match blk.id with | some i => decide (i ≠ []) | none => false) &&
       (match blk.name with | some n => decide (n ≠ []) | none => false) then
      match blk.id, blk.name with
      | some i, some n => registerCall sA i n (stringifyInputOrEmpty blk.input) (some idx)
      | _, _ => sA
    else sA

def applyMsgBlocks (s : CoreState) (idx : Nat) : List (Option MBlock) → CoreState
  | [] => s
  | b :: rest => applyMsgBlocks (applyMsgBlock s idx b) (idx + 1) rest

/-- Handling of one block of a `message_start` event (only finished
`tool_use` blocks are registered). -/
def applyStartBlock (s : CoreState) (idx : Nat) (b : Option MBlock) : CoreState :=
  match b with
  | none => s
  | some blk =>
    if decide (blk.type = "tool_use".toList) &&
       (match blk.id with | some i => decide (i ≠ []) | none => false) &&
       (match blk.name with | some n => decide (n ≠ []) | none => false) then
      match blk.id, blk.name with
      | some i, some n => registerCall s i n (stringifyInputOrEmpty blk.input) (some idx)
      | _, _ => s
    else s

def applyStartBlocks (s : CoreState) (idx : Nat) : List (Option MBlock) → CoreState
  | [] => s
  | b :: rest => applyStartBlocks (applyStartBlock s idx b) (idx + 1) rest

/-- The body of the line loop of `parseStreamResponse` for one successfully
decoded event: the four sequential `if` branches (block start, JSON-argument
delta, text delta, consolidated message, message start). -/
def applyEvent (s : CoreState) (e : StreamEvent) : CoreState :=
  let s1 :=
    if decide (e.type = "content_block_start".toList) &&
       (match e.content_block with
        | some cb => decide (cb.type = "tool_use".toList)
        | none => false) then
      match e.content_block with
      | some cb =>
        (match cb.id, cb.name with
         | some i, some n =>
           if i = [] ∨ n = [] then s else registerCall s i n [] e.index
         | _, _ => s)
      | none => s
    else s
  let s2 :=
    if decide (e.type = "content_block_delta".toList) &&
       (match e.delta with
        | some d => decide (d.type = "input_json_delta".toList)
        | none => false) then
      let target : Option Nat :=
        match e.index with
        | some i =>
          (match s1.byIndex.getD i none with
           | some ser => some ser
           | none => lastMapSerial s1)
        | none => lastMapSerial s1
      match target, (match e.delta with | some d => d.partialJson | none => none) with
      | some ser, some j =>
        if j = [] then s1 else { s1 with heap := heapAppendArgs s1.heap ser j }
      | _, _ => s1
    else s1
  let s3 :=
    if decide (e.type = "content_block_delta".toList) &&
       (match e.delta with
        | some d => decide (d.type = "text_delta".toList)
        | none => false) then
      match (match e.delta with | some d => d.text | none => none) with
      | some t => if t = [] then s2 else applyTextPiece s2 t
      | none => s2
    else s2
  let s4 :=
    if e.type = "message".toList then
      match e.content with
      | some blocks => applyMsgBlocks s3 0 blocks
      | none => s3
    else s3
  if e.type = "message_start".toList then
    match e.message with
    | some blocks => applyStartBlocks s4 0 blocks
    | none => s4
  else s4

/-- A parsed SSE line: the `[DONE]` sentinel or a decoded event. -/
inductive ParsedLine where
  | done
  | evt (e : StreamEvent)
deriving DecidableEq

/-- The `parseSSEEvent` helper: only `data: ` lines count; the literal
`[DONE]` payload is the sentinel; other payloads go through the JSON decode,
`none` (a parse failure) being skipped by the caller. -/
def parseSSEEvent (decode : Str → Option StreamEvent) (line : Str) : Option ParsedLine :=
  if strStarts "data: ".toList line then
    let d := line.drop 6
    if d = "[DONE]".toList then some .done
    else (decode d).map .evt
  else none

/-- Processing of one complete line by the loop body: the `done` sentinel
matches none of the event branches and so has no effect on the state (the
loop continues — this is the behaviour under scrutiny in the `[DONE]`
claim). -/
def applyParsed (s : CoreState) : ParsedLine → CoreState
  | .done => s
  | .evt e => applyEvent s e

def feedLine (decode : Str → Option StreamEvent) (s : CoreState) (line : Str) : CoreState :=
  match parseSSEEvent decode line with
  | none => s
  | some p => applyParsed s p

/-- `String.prototype.split('\n')`: list of segments, one more than the
newline count, possibly empty at either end. -/
def splitNl : Str → List Str
  | [] => [[]]
  | c :: rest =>
    if c = '\n' then [] :: splitNl rest
    else
      match splitNl rest with
      | [] => [[c]]
      | l :: ls => (c :: l) :: ls

/-- One iteration of the read loop on a decoded chunk: append to the line
buffer, split on newlines, keep the trailing incomplete line as the new
buffer, process the complete lines in order. -/
def feedChunk (decode : Str → Option StreamEvent) (st : Str × CoreState) (chunk : Str) :
    Str × CoreState :=
  let parts := splitNl (st.1 ++ chunk)
  (parts.getLastD [], parts.dropLast.foldl (feedLine decode) st.2)

def feedMany (decode : Str → Option StreamEvent) (st : Str × CoreState)
    (chunks : List Str) : Str × CoreState :=
  chunks.foldl (feedChunk decode) st

/-- Finalisation: one `ToolCall` per map entry in insertion order, an empty
accumulated argument string defaulting to `"{}"` (the diagnostic `JSON.parse`
of the source has no effect on the result). -/
def finalizeCalls (s : CoreState) : List ToolCall :=
  s.mapOrder.map (fun p =>
    let acc := s.heap.getD p.2 ⟨[], [], []⟩
    ⟨acc.id, ⟨acc.name, if acc.arguments = [] then ['{', '}'] else acc.arguments⟩⟩)

/-- Final result of a stream decode (`StreamParseResult`). -/
structure StreamParseResult where
  text : Str
  toolCalls : List ToolCall
  thinking : Str
deriving DecidableEq

def initCore : CoreState := ⟨[], [], false, [], [], [], []⟩

/-- The whole of `parseStreamResponse` on a list of transport chunks. -/
def parseStreamResponse (decode : Str → Option StreamEvent) (chunks : List Str) :
    StreamParseResult :=
  let st := feedMany decode ([], initCore) chunks
  ⟨st.2.accumulatedText, finalizeCalls st.2, st.2.accumulatedThinking⟩

/-- An `input_json_delta` event carrying fragment `j` at index `idx`. -/
def inputJsonDeltaEvent (idx : Option Nat) (j : Str) : StreamEvent :=
  ⟨"content_block_delta".toList, none, some ⟨"input_json_delta".toList, some j, none⟩,
   idx, none, none⟩

/-! ## Demonstration fixtures

Small concrete states and argument oracles used by the concrete theorems and
witnesses below. -/

def demoRowOne : TableRow :=
  ⟨"row-1".toList, "Widget".toList, .fin 5, "active".toList, "2024-01-10".toList, "Tools".toList⟩

def demoRowTwo : TableRow :=
  ⟨"row-2".toList, "Gadget".toList, .fin 20, "inactive".toList, "2024-02-10".toList, "Tech".toList⟩

def demoRows : List TableRow := [demoRowOne, demoRowTwo]

def demoState : TableState := ⟨demoRows, [], [], ⟨0, 10⟩⟩

/-- Argument-parse oracle returning a fixed parsed object for every string. -/
def constArgs (o : List (Str × JsVal)) : Str → JParseResult := fun _ => .ok o

/-- Decode oracle for the `[DONE]` demonstration: one JSON payload decoding
to a text delta carrying `"x"`. -/
def doneDemoPayload : Str :=
  "\x7b\x22type\x22:\x22content_block_delta\x22,\x22delta\x22:\x7b\x22type\x22:\x22text_delta\x22,\x22text\x22:\x22x\x22\x7d\x7d".toList

def doneDemoDecode : Str → Option StreamEvent := fun s =>
  if s = doneDemoPayload then
    some ⟨"content_block_delta".toList, none,
          some ⟨"text_delta".toList, none, some ['x']⟩, none, none, none⟩
  else none

/-- Chunk stream whose first line is the `[DONE]` sentinel and whose second
line is a well-formed text-delta event. -/
def doneDemoChunks : List Str :=
  ["data: [DONE]\n".toList, "data: ".toList ++ doneDemoPayload ++ ['\n']]

/-- C6: the thinking/text tag splitter reassembles a tag split across two
chunks through its carryover buffer: feeding `"<thi"` and then
`"nking>hidden</thinking>visible"` (starting outside a thinking span with an
empty carryover buffer) accumulates thinking `"hidden"` and visible text
`"visible"`, the split open tag having been held back in the buffer. -/
theorem extractThinking_split_tag_reassembly :
    (extractThinking "<thi".toList false []).remainingBuffer = "<thi".toList ∧
    (extractThinking "<thi".toList false []).thinking ++
      (extractThinking "nking>hidden</thinking>visible".toList
        (extractThinking "<thi".toList false []).isInThinking
        (extractThinking "<thi".toList false []).remainingBuffer).thinking = "hidden".toList ∧
    (extractThinking "<thi".toList false []).text ++
      (extractThinking "nking>hidden</thinking>visible".toList
        (extractThinking "<thi".toList false []).isInThinking
        (extractThinking "<thi".toList false []).remainingBuffer).text = "visible".toList := by
  decide

/-- C7: the `[DONE]` sentinel is parsed into a distinct `done` marker, but
the line loop has no branch for it, so it does not terminate decoding:
events on lines after a `data: [DONE]` line still contribute (here the
accumulated text of the decode is `"x"`, coming entirely from the event
after the sentinel). -/
theorem events_after_done_still_accumulate :
    (parseSSEEvent doneDemoDecode "data: [DONE]".toList = some .done) ∧
    (∀ s : CoreState, applyParsed s .done = s) ∧
    (parseStreamResponse doneDemoDecode doneDemoChunks).text = ['x'] := by
  refine ⟨by decide, fun s => rfl, by decide⟩

def demoCall (nm : Str) : ToolCall := ⟨"call-1".toList, ⟨nm, "args".toList⟩⟩

def amountFilterArgs : List (Str × JsVal) :=
  [("column".toList, .str "Amount".toList), ("operator".toList, .str ">".toList),
   ("value".toList, .str "10".toList)]

def badColumnArgs : List (Str × JsVal) :=
  [("column".toList, .str "foo".toList), ("operator".toList, .str "==".toList),
   ("value".toList, .str "x".toList)]

def betweenFilterArgs : List (Str × JsVal) :=
  [("column".toList, .str "Name".toList), ("operator".toList, .str "between".toList),
   ("value".toList, .str "a".toList)]

def amountGtTenSpec : ColumnFilterValue := ⟨">".toList, .str "10".toList, .undef, .undef⟩

def nameGtTenSpec : ColumnFilterValue := ⟨">".toList, .str "10".toList, .undef, .undef⟩

/-- The nine filter operators the tool schema documents. -/
def NINE_OPERATORS : List Str :=
  [">".toList, "<".toList, ">=".toList, "<=".toList, "==".toList, "!=".toList,
   "contains".toList, "startsWith".toList, "endsWith".toList]

def idFilterArgs : List (Str × JsVal) :=
  [("column".toList, .str "id".toList), ("operator".toList, .str "==".toList),
   ("value".toList, .str "row-1".toList)]

/-- C3 (counterexample): the executor's `VALID_COLUMNS` contains `id`, so a
`filterTable` call whose column is `"id"` succeeds and stores a filter keyed
by `id` — it is not rejected with a validation error as claimed. -/
theorem filterTable_accepts_id_column :
    (executeToolCall (constArgs idFilterArgs) 0 (demoCall "filterTable".toList)
        demoState).success = true ∧
    (executeToolCall (constArgs idFilterArgs) 0 (demoCall "filterTable".toList)
        demoState).newState.columnFilters =
      [⟨"id".toList, ⟨"==".toList, .str "row-1".toList, .undef, .undef⟩⟩] := by
  decide

def addRowNoAmountArgs : List (Str × JsVal) :=
  [("name".toList, .str "X".toList), ("status".toList, .str "active".toList),
   ("date".toList, .str "2024-01-15".toList), ("category".toList, .str "C".toList)]

/-- C4: `addRow` never validates `amount` although its schema requires a
number: a call with the amount field absent succeeds and appends a row whose
amount is `Number(undefined)`, i.e. NaN, instead of returning a validation
error with the state unchanged. -/
theorem addRow_missing_amount_accepted :
    (executeToolCall (constArgs addRowNoAmountArgs) 1234 (demoCall "addRow".toList)
        demoState).success = true ∧
    (executeToolCall (constArgs addRowNoAmountArgs) 1234 (demoCall "addRow".toList)
        demoState).newState.data =
      demoRows ++ [⟨"row-1234".toList, "X".toList, .nan, "active".toList,
                   "2024-01-15".toList, "C".toList⟩] := by
  decide

/-! ## Frame lemmas for the executor -/

lemma filterTableExec_frame (args : List (Str × JsVal)) (s : TableState) :
    (filterTableExec args s).message.isSome = true ∧
    ((filterTableExec args s).success = false → (filterTableExec args s).newState = s) := by
  unfold filterTableExec
  dsimp only
  split
  · simp [createErrorResult]
  · split
    · simp [createErrorResult]
    · split
      · simp [createErrorResult]
      · simp

lemma sortTableExec_frame (args : List (Str × JsVal)) (s : TableState) :
    (sortTableExec args s).message.isSome = true ∧
    ((sortTableExec args s).success = false → (sortTableExec args s).newState = s) := by
  unfold sortTableExec
  dsimp only
  split
  · simp [createErrorResult]
  · split
    · simp [createErrorResult]
    · simp

lemma addRowExec_frame (now : Int) (args : List (Str × JsVal)) (s : TableState) :
    (addRowExec now args s).message.isSome = true ∧
    ((addRowExec now args s).success = false → (addRowExec now args s).newState = s) := by
  unfold addRowExec
  dsimp only
  split
  · simp
  · split
    · simp
    · simp

lemma deleteRowPick_error (args : List (Str × JsVal)) (s : TableState)
    (r : ToolExecutionResult) (h : deleteRowPick args s = .error r) :
    r.success = false ∧ r.message.isSome = true ∧ r.newState = s := by
  unfold deleteRowPick at h
  dsimp only at h
  repeat' split at h
  all_goals first
    | (cases h; simp [createErrorResult])
    | (exact absurd h (by simp))

lemma deleteRowExec_frame (args : List (Str × JsVal)) (s : TableState) :
    (deleteRowExec args s).message.isSome = true ∧
    ((deleteRowExec args s).success = false → (deleteRowExec args s).newState = s) := by
  unfold deleteRowExec
  dsimp only
  split
  · rename_i r hr
    have := deleteRowPick_error args s r hr
    simp [this.2.1, this.2.2]
  · simp

lemma executeToolCall_frame (jp : Str → JParseResult) (now : Int) (tc : ToolCall)
    (s : TableState) :
    (executeToolCall jp now tc s).message.isSome = true ∧
    ((executeToolCall jp now tc s).success = false →
      (executeToolCall jp now tc s).newState = s) := by
  unfold executeToolCall
  split
  · simp [createErrorResult]
  · split
    · exact filterTableExec_frame _ _
    · split
      · exact sortTableExec_frame _ _
      · split
        · exact addRowExec_frame _ _ _
        · split
          · exact deleteRowExec_frame _ _
          · split
            · simp
            · split
              · simp
              · simp [createErrorResult]

/-- C2: the executor is total (in this model every path returns a result)
and every failure path hands back a message together with the unchanged input
state; in particular an unknown tool name such as `"doStuff"` (with parseable
arguments) produces a failed result whose message contains that name and
whose state is the input state. -/
theorem executeToolCall_total_failure_frame :
    ∀ (jp : Str → JParseResult) (now : Int) (tc : ToolCall) (s : TableState),
      ((executeToolCall jp now tc s).success = false →
        (executeToolCall jp now tc s).newState = s ∧
        (executeToolCall jp now tc s).message.isSome = true) ∧
      (∀ o, jp tc.function.arguments = .ok o → tc.function.name = "doStuff".toList →
        (executeToolCall jp now tc s).success = false ∧
        (∃ m, (executeToolCall jp now tc s).message = some m ∧
          strIncludes "doStuff".toList m = true) ∧
        (executeToolCall jp now tc s).newState = s) := by
  intro jp now tc s
  refine ⟨fun hf => ⟨(executeToolCall_frame jp now tc s).2 hf,
                    (executeToolCall_frame jp now tc s).1⟩, ?_⟩
  intro o ho hname
  simp only [executeToolCall, ho, hname]
  simp [createErrorResult]
  decide

/-- Witness for the failure-frame theorem at the concrete `"doStuff"` call. -/
theorem executeToolCall_total_failure_frame_witness :
    (executeToolCall (constArgs []) 0 (demoCall "doStuff".toList) demoState).success = false ∧
    (∃ m, (executeToolCall (constArgs []) 0 (demoCall "doStuff".toList) demoState).message =
        some m ∧ strIncludes "doStuff".toList m = true) ∧
    (executeToolCall (constArgs []) 0 (demoCall "doStuff".toList) demoState).newState =
      demoState :=
  (executeToolCall_total_failure_frame (constArgs []) 0 (demoCall "doStuff".toList)
    demoState).2 [] rfl rfl

/-- C1: every successful `filterTable` execution leaves exactly one stored
filter for the validated target column, keeps the filters of all other
columns exactly as in the input state, and leaves the row data and the sort
spec unchanged (filters are additive across columns, replace-or-merge within
a column). -/
theorem filterTable_additive_replace :
    ∀ (jp : Str → JParseResult) (now : Int) (tc : ToolCall) (s : TableState),
      tc.function.name = "filterTable".toList →
      (executeToolCall jp now tc s).success = true →
      ∃ args col nfv,
        jp tc.function.arguments = .ok args ∧
        validateColumn (getField args "column".toList) = some col ∧
        (executeToolCall jp now tc s).newState.columnFilters =
          s.columnFilters.filter (fun f => decide (f.id ≠ col)) ++ [⟨col, nfv⟩] ∧
        ((executeToolCall jp now tc s).newState.columnFilters.countP
          (fun f => decide (f.id = col))) = 1 ∧
        (executeToolCall jp now tc s).newState.data = s.data ∧
        (executeToolCall jp now tc s).newState.sorting = s.sorting := by
  intro jp now tc s hname hsucc
  cases hjp : jp tc.function.arguments with
  | err m =>
    have hexec : executeToolCall jp now tc s =
        createErrorResult ("Failed to parse tool arguments: ".toList ++ m) s := by
      unfold executeToolCall; rw [hjp]
    rw [hexec] at hsucc; simp [createErrorResult] at hsucc
  | ok args =>
    have hexec : executeToolCall jp now tc s = filterTableExec args s := by
      unfold executeToolCall; rw [hjp, hname]; rfl
    rw [hexec] at hsucc ⊢
    refine ⟨args, ?_⟩
    unfold filterTableExec at hsucc ⊢
    dsimp only at hsucc ⊢
    split at hsucc
    · simp [createErrorResult] at hsucc
    · rename_i col hv
      rw [hv]
      split at hsucc
      · simp [createErrorResult] at hsucc
      · split at hsucc
        · simp [createErrorResult] at hsucc
        · rename_i h1 h2
          rw [if_neg h1, if_neg h2]
          refine ⟨col, _, rfl, rfl, rfl, ?_, rfl, rfl⟩
          simp only [List.countP_append, List.countP_cons, List.countP_nil]
          have hz : (s.columnFilters.filter (fun f => decide (f.id ≠ col))).countP
              (fun f => decide (f.id = col)) = 0 := by
            rw [List.countP_eq_zero]
            intro f hf
            simp only [List.mem_filter] at hf
            simpa using hf.2
          simp [hz]


/-- Witness for the filter frame theorem at a concrete successful call. -/
theorem filterTable_additive_replace_witness :
    (executeToolCall (constArgs amountFilterArgs) 0 (demoCall "filterTable".toList)
        demoState).success = true ∧
    (∃ args col nfv,
      constArgs amountFilterArgs (demoCall "filterTable".toList).function.arguments =
        .ok args ∧
      validateColumn (getField args "column".toList) = some col ∧
      (executeToolCall (constArgs amountFilterArgs) 0 (demoCall "filterTable".toList)
          demoState).newState.columnFilters =
        demoState.columnFilters.filter (fun f => decide (f.id ≠ col)) ++ [⟨col, nfv⟩] ∧
      ((executeToolCall (constArgs amountFilterArgs) 0 (demoCall "filterTable".toList)
          demoState).newState.columnFilters.countP (fun f => decide (f.id = col))) = 1 ∧
      (executeToolCall (constArgs amountFilterArgs) 0 (demoCall "filterTable".toList)
          demoState).newState.data = demoState.data ∧
      (executeToolCall (constArgs amountFilterArgs) 0 (demoCall "filterTable".toList)
          demoState).newState.sorting = demoState.sorting) :=
  ⟨by decide,
   filterTable_additive_replace (constArgs amountFilterArgs) 0
     (demoCall "filterTable".toList) demoState rfl (by decide)⟩
lemma normalizeColumn_mem (s c : Str) (h : normalizeColumn s = some c) : c ∈ VALID_COLUMNS := by
  unfold normalizeColumn at h
  dsimp only at h
  split at h
  · cases h; assumption
  · exact absurd h (by simp)

lemma validateColumn_mem (v : JsVal) (c : Str) (h : validateColumn v = some c) :
    c ∈ VALID_COLUMNS := by
  unfold validateColumn at h
  split at h
  · exact absurd h (by simp)
  · split at h
    · exact normalizeColumn_mem _ _ h
    · exact absurd h (by simp)

lemma filterTableExec_success (args : List (Str × JsVal)) (s : TableState)
    (hsucc : (filterTableExec args s).success = true) :
    ∃ col nfv, validateColumn (getField args "column".toList) = some col ∧
      (filterTableExec args s).newState.columnFilters =
        s.columnFilters.filter (fun f => decide (f.id ≠ col)) ++ [⟨col, nfv⟩] ∧
      (filterTableExec args s).newState.data = s.data ∧
      (filterTableExec args s).newState.sorting = s.sorting := by
  simp only [filterTableExec] at hsucc ⊢
  split at hsucc
  · simp [createErrorResult] at hsucc
  · rename_i col hv
    rw [hv]
    split at hsucc
    · simp [createErrorResult] at hsucc
    · split at hsucc
      · simp [createErrorResult] at hsucc
      · rename_i h1 h2
        rw [if_neg h1, if_neg h2]
        exact ⟨col, _, rfl, rfl, rfl, rfl⟩

/-- C3 (amended): `filterTable` succeeds only when the column argument is a
string normalizing to one of the six `VALID_COLUMNS` (`id` included); any
other non-empty column string yields the validation error naming the valid
set with the state unchanged, and every successful call only introduces
filter keys from the six valid columns on top of the input state's keys. -/
theorem filterTable_column_validation :
    ∀ (jp : Str → JParseResult) (now : Int) (tc : ToolCall) (s : TableState)
      (args : List (Str × JsVal)),
      tc.function.name = "filterTable".toList →
      jp tc.function.arguments = .ok args →
      ((∀ cs, getField args "column".toList = .str cs → cs ≠ [] →
          normalizeColumn cs = none →
          executeToolCall jp now tc s = createErrorResult (msgInvalidColumn (.str cs)) s) ∧
       ((executeToolCall jp now tc s).success = true →
         ∃ col, col ∈ VALID_COLUMNS ∧
           ∀ f ∈ (executeToolCall jp now tc s).newState.columnFilters,
             f.id = col ∨ f.id ∈ s.columnFilters.map (fun g => g.id))) := by
  intro jp now tc s args hname hjp
  have hexec : executeToolCall jp now tc s = filterTableExec args s := by
    unfold executeToolCall; rw [hjp, hname]; rfl
  constructor
  · intro cs hcs hne hnorm
    rw [hexec]
    have hval : validateColumn (getField args "column".toList) = none := by
      rw [hcs]; simp [validateColumn, truthy, hne, hnorm]
    simp only [filterTableExec]
    rw [hval, hcs]
    simp [truthy, isStrVal, hne, createErrorResult]
  · intro hsucc
    rw [hexec] at hsucc ⊢
    obtain ⟨col, nfv, hv, hcf, _, _⟩ := filterTableExec_success args s hsucc
    refine ⟨col, validateColumn_mem _ _ hv, ?_⟩
    intro f hf
    rw [hcf] at hf
    rcases List.mem_append.mp hf with h | h
    · right
      rw [List.mem_filter] at h
      exact List.mem_map.mpr ⟨f, h.1, rfl⟩
    · left
      simp at h
      rw [h]

/-- Witness for the amended column-validation theorem at the concrete
invalid column `"foo"`. -/
theorem filterTable_column_validation_witness :
    executeToolCall (constArgs badColumnArgs) 0 (demoCall "filterTable".toList) demoState =
      createErrorResult (msgInvalidColumn (.str "foo".toList)) demoState :=
  (filterTable_column_validation (constArgs badColumnArgs) 0 (demoCall "filterTable".toList)
    demoState badColumnArgs rfl rfl).1 "foo".toList rfl (by decide) (by decide)

lemma jnumLt_nan_r (a : JNum) : jnumLt a .nan = false := by cases a <;> rfl

lemma jnumLt_nan_l (b : JNum) : jnumLt .nan b = false := by cases b <;> rfl

lemma jnumLe_nan_r (a : JNum) : jnumLe a .nan = false := by cases a <;> rfl

lemma jnumLe_nan_l (b : JNum) : jnumLe .nan b = false := by cases b <;> rfl

/-- C8: under the numeric operators `>`, `<`, `>=`, `<=` the row predicate
coerces both the cell and the filter value to numbers and returns false
(never raises) whenever either coercion is NaN, outside the date-comparison
branch; and on the spec scenario (`amount > "10"` over rows with amounts 5
and 20) only the amount-20 row stays visible. -/
theorem numeric_operators_nan_unsatisfied :
    (∀ (row : TableRow) (columnId : Str) (fv : ColumnFilterValue),
      (fv.operator = ">".toList ∨ fv.operator = "<".toList ∨
       fv.operator = ">=".toList ∨ fv.operator = "<=".toList) →
      fv.value ≠ .undef →
      ¬(columnId = "date".toList ∧ isDateValue fv.value = true) →
      (toNumber (rowField row columnId) = .nan ∨ toNumber fv.value = .nan) →
      customFilterFn row columnId fv = false) ∧
    demoState.data.filter (fun r => customFilterFn r "amount".toList amountGtTenSpec) =
      [demoRowTwo] := by
  constructor
  · intro row columnId fv hop hval hdate hnan
    have hdateb : (decide (columnId = "date".toList) && isDateValue fv.value) = false := by
      by_cases hc : columnId = "date".toList
      · have hiv : isDateValue fv.value = false := by
          cases hiv : isDateValue fv.value
          · rfl
          · exact absurd ⟨hc, hiv⟩ hdate
        rw [hiv, Bool.and_false]
      · rw [decide_eq_false hc, Bool.false_and]
    rcases hop with h | h | h | h <;>
      simp only [customFilterFn, h, hdateb] <;>
      simp [hval] <;>
      rcases hnan with hn | hn <;>
        simp [jnumGt, jnumGe, hn, jnumLt_nan_r, jnumLt_nan_l, jnumLe_nan_r, jnumLe_nan_l]
  · decide

/-- Witness for the NaN theorem: a non-numeric cell (`"Widget"`) under
`> "10"` on a non-date column does not satisfy the filter. -/
theorem numeric_operators_nan_unsatisfied_witness :
    (toNumber (rowField demoRowOne "name".toList) = .nan ∨
      toNumber nameGtTenSpec.value = .nan) ∧
    customFilterFn demoRowOne "name".toList nameGtTenSpec = false :=
  ⟨Or.inl (by decide),
   numeric_operators_nan_unsatisfied.1 demoRowOne "name".toList nameGtTenSpec
     (Or.inl rfl) (by decide) (by decide) (Or.inl (by decide))⟩

lemma newFilterValueFor_plain (ex : Option ColumnFilterValue) (col opS : Str) (v : JsVal)
    (h : ¬(col = "date".toList ∧ isDateValueCheck v = true)) :
    newFilterValueFor ex col opS v = ⟨opS, v, .undef, .undef⟩ := by
  have hb : (decide (col = "date".toList) && isDateValueCheck v) = false := by
    by_cases hc : col = "date".toList
    · have hiv : isDateValueCheck v = false := by
        cases hiv : isDateValueCheck v
        · rfl
        · exact absurd ⟨hc, hiv⟩ h
      rw [hiv, Bool.and_false]
    · rw [decide_eq_false hc, Bool.false_and]
  cases ex with
  | none => rfl
  | some e =>
    simp only [newFilterValueFor, hb]
    rfl

/-- C9: `filterTable` never validates the operator: any non-empty operator
string is accepted and stored verbatim in the column's filter spec (plain
spec, no range fields, outside the date-merge situation), and the row
predicate returns true for every row under a spec whose operator is outside
the nine documented operators (the switch's default hides nothing). -/
theorem unknown_operator_stored_and_passes :
    (∀ (jp : Str → JParseResult) (now : Int) (tc : ToolCall) (s : TableState)
       (args : List (Str × JsVal)) (col opS : Str) (v : JsVal),
      tc.function.name = "filterTable".toList →
      jp tc.function.arguments = .ok args →
      validateColumn (getField args "column".toList) = some col →
      getField args "operator".toList = .str opS →
      opS ≠ [] →
      getField args "value".toList = v →
      v ≠ .undef → v ≠ .null →
      ¬(col = "date".toList ∧ isDateValueCheck v = true) →
      (executeToolCall jp now tc s).success = true ∧
      (executeToolCall jp now tc s).newState.columnFilters =
        s.columnFilters.filter (fun f => decide (f.id ≠ col)) ++
          [⟨col, ⟨opS, v, .undef, .undef⟩⟩]) ∧
    (∀ (row : TableRow) (columnId opS : Str) (v : JsVal),
      opS ∉ NINE_OPERATORS →
      opS ≠ [] →
      v ≠ .undef →
      ¬(columnId = "date".toList ∧ isDateValue v = true) →
      customFilterFn row columnId ⟨opS, v, .undef, .undef⟩ = true) := by
  constructor
  · intro jp now tc s args col opS v hname hjp hv hop hopne hval hvu hvn hnd
    have hexec : executeToolCall jp now tc s = filterTableExec args s := by
      unfold executeToolCall; rw [hjp, hname]; rfl
    rw [hexec]
    simp only [filterTableExec]
    simp only [hv, hop, hval]
    rw [if_neg (by simp [truthy, isStrVal, hopne])]
    rw [if_neg (by rintro (h | h); exact hvu h; exact hvn h)]
    rw [newFilterValueFor_plain _ _ _ _ hnd]
    exact ⟨rfl, rfl⟩
  · intro row columnId opS v hnine hopne hvu hnd
    simp only [NINE_OPERATORS, List.mem_cons, not_or] at hnine
    obtain ⟨h1, h2, h3, h4, h5, h6, h7, h8, h9, -⟩ := hnine
    have hdateb : (decide (columnId = "date".toList) && isDateValue v) = false := by
      by_cases hc : columnId = "date".toList
      · have hiv : isDateValue v = false := by
          cases hiv : isDateValue v
          · rfl
          · exact absurd ⟨hc, hiv⟩ hnd
        rw [hiv, Bool.and_false]
      · rw [decide_eq_false hc, Bool.false_and]
    simp only [customFilterFn]
    rw [if_neg (by rintro (h | h); exact hopne h; exact hvu h)]
    rw [if_neg (by rintro ⟨-, h, -⟩; exact h rfl)]
    rw [hdateb]
    simp only [Bool.false_eq_true, if_false]
    rw [if_neg h1, if_neg h2, if_neg h3, if_neg h4,
        if_neg (by rintro (h | h); exact h5 h; exact h6 h),
        if_neg h7, if_neg h8, if_neg h9]

/-- Witness for the unknown-operator theorem: operator `"between"` on the
name column is stored and its spec keeps every row visible. -/
theorem unknown_operator_stored_and_passes_witness :
    ((executeToolCall (constArgs betweenFilterArgs) 0 (demoCall "filterTable".toList)
        demoState).success = true ∧
     (executeToolCall (constArgs betweenFilterArgs) 0 (demoCall "filterTable".toList)
        demoState).newState.columnFilters =
       demoState.columnFilters.filter (fun f => decide (f.id ≠ "name".toList)) ++
         [⟨"name".toList, ⟨"between".toList, .str "a".toList, .undef, .undef⟩⟩]) ∧
    customFilterFn demoRowOne "name".toList
      ⟨"between".toList, .str "a".toList, .undef, .undef⟩ = true :=
  ⟨unknown_operator_stored_and_passes.1 (constArgs betweenFilterArgs) 0
     (demoCall "filterTable".toList) demoState betweenFilterArgs "name".toList
     "between".toList (.str "a".toList) rfl rfl (by decide) rfl (by decide) rfl
     (by decide) (by decide) (by decide),
   unknown_operator_stored_and_passes.2 demoRowOne "name".toList "between".toList
     (.str "a".toList) (by decide) (by decide) (by decide) (by decide)⟩

/-- C10: an `input_json_delta` whose index is not registered in
`toolCallsByIndex` (and likewise one with no index) appends its fragment to
the most-recently-registered tool call when one exists, and is silently
discarded when the map is empty. -/
theorem json_delta_index_fallback :
    ∀ (s : CoreState) (idx : Option Nat) (j : Str),
      (∀ i, idx = some i → s.byIndex.getD i none = none) →
      j ≠ [] →
      applyEvent s (inputJsonDeltaEvent idx j) =
        match s.mapOrder.getLast? with
        | none => s
        | some p => { s with heap := heapAppendArgs s.heap p.2 j } := by
  intro s idx j hidx hj
  cases idx with
  | some i =>
    have hnone : s.byIndex.getD i none = none := hidx i rfl
    simp only [List.getD, List.get?_eq_getElem?] at hnone
    cases hlast : s.mapOrder.getLast? with
    | none => simp [applyEvent, inputJsonDeltaEvent, hnone, lastMapSerial, hlast, hj]
    | some p => simp [applyEvent, inputJsonDeltaEvent, hnone, lastMapSerial, hlast, hj]
  | none =>
    cases hlast : s.mapOrder.getLast? with
    | none => simp [applyEvent, inputJsonDeltaEvent, lastMapSerial, hlast, hj]
    | some p => simp [applyEvent, inputJsonDeltaEvent, lastMapSerial, hlast, hj]

lemma splitNl_ne_nil (s : Str) : splitNl s ≠ [] := by
  induction s with
  | nil => simp [splitNl]
  | cons c t ih =>
    simp only [splitNl]
    split
    · simp
    · cases h : splitNl t <;> simp

lemma getLastD_append_right (X Q : List Str) (d : Str) (h : Q ≠ []) :
    (X ++ Q).getLastD d = Q.getLastD d := by
  induction X with
  | nil => rfl
  | cons x xs ih =>
    cases hxq : xs ++ Q with
    | nil => exact absurd (List.append_eq_nil.mp hxq).2 h
    | cons a l =>
      simp only [List.cons_append, hxq, List.getLastD_cons] at *
      exact ih

lemma splitNl_cons_nl (t : Str) : splitNl ('\n' :: t) = [] :: splitNl t := by
  simp [splitNl]

lemma splitNl_cons_ne (c : Char) (t : Str) (hc : c ≠ '\n') :
    splitNl (c :: t) =
      match splitNl t with
      | [] => [[c]]
      | m :: ms => (c :: m) :: ms := by
  simp [splitNl, hc]

lemma splitNl_append (x y : Str) :
    splitNl (x ++ y) =
      (splitNl x).dropLast ++ splitNl ((splitNl x).getLastD [] ++ y) := by
  induction x with
  | nil => simp [splitNl]
  | cons c t ih =>
    obtain ⟨l, ls, hls⟩ : ∃ l ls, splitNl t = l :: ls := by
      cases h : splitNl t with
      | nil => exact absurd h (splitNl_ne_nil t)
      | cons l ls => exact ⟨l, ls, rfl⟩
    by_cases hc : c = '\n'
    · subst hc
      rw [List.cons_append, splitNl_cons_nl, splitNl_cons_nl, ih, hls]
      cases ls with
      | nil => simp [List.getLastD_cons]
      | cons l2 ls2 => simp [List.getLastD_cons]
    · rw [List.cons_append, splitNl_cons_ne _ _ hc, splitNl_cons_ne _ _ hc, hls, ih, hls]
      cases ls with
      | nil =>
        obtain ⟨m, ms, hm⟩ : ∃ m ms, splitNl (l ++ y) = m :: ms := by
          cases h : splitNl (l ++ y) with
          | nil => exact absurd h (splitNl_ne_nil _)
          | cons m ms => exact ⟨m, ms, rfl⟩
        simp only [List.dropLast_single, List.getLastD_cons, List.getLastD_nil,
          List.nil_append, hm, List.dropLast_nil]
        rw [List.cons_append, splitNl_cons_ne _ _ hc, hm]
      | cons l2 ls2 =>
        simp only [List.getLastD_cons]
        simp [List.dropLast]

lemma dropLast_append_right (X Q : List Str) (h : Q ≠ []) :
    (X ++ Q).dropLast = X ++ Q.dropLast := by
  induction X with
  | nil => rfl
  | cons x xs ih =>
    cases hxq : xs ++ Q with
    | nil => exact absurd (List.append_eq_nil.mp hxq).2 h
    | cons a l =>
      rw [List.cons_append, hxq, List.dropLast_cons₂, ← hxq, ih, List.cons_append]

lemma feedChunk_append (d : Str → Option StreamEvent) (st : Str × CoreState) (a b : Str) :
    feedChunk d (feedChunk d st a) b = feedChunk d st (a ++ b) := by
  obtain ⟨buf, s⟩ := st
  simp only [feedChunk]
  have hQ : splitNl ((splitNl (buf ++ a)).getLastD [] ++ b) ≠ [] := splitNl_ne_nil _
  rw [← List.append_assoc, splitNl_append (buf ++ a) b]
  rw [getLastD_append_right _ _ _ hQ, dropLast_append_right _ _ hQ, List.foldl_append]

lemma feedMany_join (d : Str → Option StreamEvent) (st : Str × CoreState) (c : Str)
    (cs : List Str) : feedMany d st (c :: cs) = feedChunk d st (c ++ cs.flatten) := by
  induction cs generalizing st c with
  | nil => simp [feedMany]
  | cons c2 cs2 ih =>
    have h1 : feedMany d st (c :: c2 :: cs2) = feedMany d (feedChunk d st c) (c2 :: cs2) := rfl
    rw [h1, ih, feedChunk_append, List.flatten_cons]

lemma heapAppendArgs_append (h : List ToolAcc) (n : Nat) (a b : Str) :
    heapAppendArgs (heapAppendArgs h n a) n b = heapAppendArgs h n (a ++ b) := by
  induction h generalizing n with
  | nil => rfl
  | cons x t ih =>
    cases n with
    | zero => simp [heapAppendArgs]
    | succ m => simp [heapAppendArgs, ih]

lemma applyEvent_delta_merge (s : CoreState) (idx : Option Nat) (j1 j2 : Str) :
    applyEvent (applyEvent s (inputJsonDeltaEvent idx j1)) (inputJsonDeltaEvent idx j2) =
      applyEvent s (inputJsonDeltaEvent idx (j1 ++ j2)) := by
  by_cases h1 : j1 = []
  · subst h1
    cases idx with
    | some i =>
      cases hbi : s.byIndex.getD i none with
      | some ser =>
        simp only [List.getD, List.get?_eq_getElem?] at hbi
        simp [applyEvent, inputJsonDeltaEvent, hbi]
      | none =>
        simp only [List.getD, List.get?_eq_getElem?] at hbi
        cases hlast : s.mapOrder.getLast? with
        | none => simp [applyEvent, inputJsonDeltaEvent, hbi, lastMapSerial, hlast]
        | some p => simp [applyEvent, inputJsonDeltaEvent, hbi, lastMapSerial, hlast]
    | none =>
      cases hlast : s.mapOrder.getLast? with
      | none => simp [applyEvent, inputJsonDeltaEvent, lastMapSerial, hlast]
      | some p => simp [applyEvent, inputJsonDeltaEvent, lastMapSerial, hlast]
  · by_cases h2 : j2 = []
    · subst h2
      cases idx with
      | some i =>
        cases hbi : s.byIndex.getD i none with
        | some ser =>
          simp only [List.getD, List.get?_eq_getElem?] at hbi
          simp [applyEvent, inputJsonDeltaEvent, hbi, h1]
        | none =>
          simp only [List.getD, List.get?_eq_getElem?] at hbi
          cases hlast : s.mapOrder.getLast? with
          | none => simp [applyEvent, inputJsonDeltaEvent, hbi, lastMapSerial, hlast, h1]
          | some p => simp [applyEvent, inputJsonDeltaEvent, hbi, lastMapSerial, hlast, h1]
      | none =>
        cases hlast : s.mapOrder.getLast? with
        | none => simp [applyEvent, inputJsonDeltaEvent, lastMapSerial, hlast, h1]
        | some p => simp [applyEvent, inputJsonDeltaEvent, lastMapSerial, hlast, h1]
    · have h12 : j1 ++ j2 ≠ [] := by simp [h1]
      cases idx with
      | some i =>
        cases hbi : s.byIndex.getD i none with
        | some ser =>
          simp only [List.getD, List.get?_eq_getElem?] at hbi
          simp [applyEvent, inputJsonDeltaEvent, hbi, h1, h2, h12, heapAppendArgs_append]
        | none =>
          simp only [List.getD, List.get?_eq_getElem?] at hbi
          cases hlast : s.mapOrder.getLast? with
          | none => simp [applyEvent, inputJsonDeltaEvent, hbi, lastMapSerial, hlast, h1, h2, h12]
          | some p =>
            simp [applyEvent, inputJsonDeltaEvent, hbi, lastMapSerial, hlast, h1, h2, h12,
              heapAppendArgs_append]
      | none =>
        cases hlast : s.mapOrder.getLast? with
        | none => simp [applyEvent, inputJsonDeltaEvent, lastMapSerial, hlast, h1, h2, h12]
        | some p =>
          simp [applyEvent, inputJsonDeltaEvent, lastMapSerial, hlast, h1, h2, h12,
            heapAppendArgs_append]

def fallbackDemoState : CoreState :=
  ⟨[], [], false, [], [⟨"toolu-1".toList, "filterTable".toList, "ab".toList⟩],
   [("toolu-1".toList, 0)], []⟩

/-- Witness for the index-fallback theorem: index 3 is unregistered, the
fragment lands on the single registered call. -/
theorem json_delta_index_fallback_witness :
    (∀ i, (some 3 : Option Nat) = some i → fallbackDemoState.byIndex.getD i none = none) ∧
    ("xy".toList ≠ ([] : Str)) ∧
    applyEvent fallbackDemoState (inputJsonDeltaEvent (some 3) "xy".toList) =
      { fallbackDemoState with
        heap := heapAppendArgs fallbackDemoState.heap 0 "xy".toList } :=
  ⟨fun _ _ => rfl, by decide,
   json_delta_index_fallback fallbackDemoState (some 3) "xy".toList (fun _ _ => rfl)
     (by decide)⟩

/-- C5: accumulation is invariant under re-chunking: processing a non-empty
list of transport chunks equals processing their concatenation as one chunk
(hence so does the final decoded result, tool-call argument strings
included), and a JSON-argument fragment delivered as two deltas to the same
target accumulates exactly as the concatenated fragment delivered once. -/
theorem stream_rechunking_invariant :
    (∀ (decode : Str → Option StreamEvent) (st : Str × CoreState) (c : Str) (cs : List Str),
      feedMany decode st (c :: cs) = feedChunk decode st (c ++ cs.flatten)) ∧
    (∀ (decode : Str → Option StreamEvent) (c : Str) (cs : List Str),
      parseStreamResponse decode (c :: cs) = parseStreamResponse decode [c ++ cs.flatten]) ∧
    (∀ (s : CoreState) (idx : Option Nat) (j1 j2 : Str),
      applyEvent (applyEvent s (inputJsonDeltaEvent idx j1)) (inputJsonDeltaEvent idx j2) =
        applyEvent s (inputJsonDeltaEvent idx (j1 ++ j2))) := by
  refine ⟨feedMany_join, ?_, applyEvent_delta_merge⟩
  intro decode c cs
  unfold parseStreamResponse
  rw [feedMany_join]
  rfl
